import Mathlib

/-!
Verification of the transactional-outbox relay: a shallow embedding of
`src/users/tasks.py` (`process_outbox`), `src/core/use_case.py` (`log_event`)
and `src/users/models.py` (`Outbox.clean`, field constants).

Modelling conventions:
  - Timestamps are natural numbers (seconds); `timezone.now()` becomes an
    explicit `now : Nat` parameter threaded through a run.
  - The store is a list of records; Django queryset `filter(...).update(...)`
    becomes a `List.map` guarded by the same predicate, `order_by` becomes
    `List.insertionSort`, `[:500]` becomes `List.take 500`.
  - Exceptions become an explicit `FailPoint` parameter naming where the run
    raises (nowhere; during the step-2 claim selection; after the id list is
    captured but before the step-3 mark-processing update commits, e.g. a
    soft-time-limit exception or a rolled-back database error in that window;
    or in the step-4 sink insert), and a `raised` flag on the result;
    `logger.error`, `capture_message` and the sink `insert` calls are
    recorded in the result.
  - `event_context` (a JSON payload opaque to the relay) is modelled as an
    opaque `String`.
-/

/-- The four status constants `Outbox.STATUS_PENDING | STATUS_PROCESSING |
STATUS_PROCESSED | STATUS_FAILED` of `src/users/models.py`. -/
inductive Status where
  | pending
  | processing
  | processed
  | failed
deriving DecidableEq

/-- One row of the `Outbox` table (`src/users/models.py`), with the
`created_at`/`updated_at` columns of `TimeStampedModel`. -/
structure OutboxRecord where
  id : Nat
  event_type : String
  event_date_time : Nat
  environment : String
  event_context : String
  metadata_version : Nat
  status : Status
  created_at : Nat
  updated_at : Nat
deriving DecidableEq

/-- The outbox table: a list of rows. -/
abbrev Store := List OutboxRecord

/-- `timezone.now() - timedelta(minutes=10)` (tasks.py line 39), in seconds. -/
def staleThreshold (now : Nat) : Nat := now - 10 * 60

/-- Step 1 of `process_outbox` (tasks.py lines 40-45):
`Outbox.objects.filter(status=STATUS_PROCESSING, updated_at__lte=stale_threshold)
.update(status=STATUS_FAILED)`. Note the update writes only `status`. -/
def reclaimStale (now : Nat) (s : Store) : Store :=
  s.map fun r =>
    if r.status = Status.processing ∧ r.updated_at ≤ staleThreshold now then
      { r with status := Status.failed }
    else r

/-- The step-2 claim filter `status__in=[STATUS_PENDING, STATUS_FAILED]`
(tasks.py lines 48-49). -/
def eligible (r : OutboxRecord) : Bool :=
  r.status == Status.pending || r.status == Status.failed

/-- The `order_by('created_at')` comparison of tasks.py line 50. -/
def createdLE (a b : OutboxRecord) : Prop := a.created_at ≤ b.created_at

instance : DecidableRel createdLE :=
  fun a b => inferInstanceAs (Decidable (a.created_at ≤ b.created_at))

instance : IsTotal OutboxRecord createdLE :=
  ⟨fun a b => Nat.le_total a.created_at b.created_at⟩

instance : IsTrans OutboxRecord createdLE :=
  ⟨fun _ _ _ hab hbc => Nat.le_trans hab hbc⟩

/-- Step 2 of `process_outbox` (tasks.py lines 47-50):
`Outbox.objects.filter(status__in=[pending, failed]).order_by('created_at')[:500]`. -/
def claimBatch (s : Store) : List OutboxRecord :=
  ((s.filter eligible).insertionSort createdLE).take 500

/-- The blind-id batch update used by steps 3, 5 and 6 of `process_outbox`
(tasks.py lines 61-64, 72-75, 83-86):
`Outbox.objects.filter(id__in=ids).update(status=st, updated_at=timezone.now())`.
The filter is id membership only. -/
def updateWhereIds (ids : List Nat) (st : Status) (now : Nat) (s : Store) : Store :=
  s.map fun r =>
    if r.id ∈ ids then { r with status := st, updated_at := now } else r

/-- Where (if anywhere) the run raises: nowhere; in the step-2 selection
before any ids were collected; after `pending_logs_ids` is captured
(tasks.py line 57) but before the step-3 atomic update commits (e.g.
Celery's soft-time-limit exception, which the task's `soft_time_limit=300`
can fire at any point and `except Exception` catches, or an error inside the
atomic block that rolls it back); or in the step-4 `client.insert` call. -/
inductive FailPoint where
  | noFail
  | duringClaim
  | beforeMarkProcessing
  | sinkInsert
deriving DecidableEq

/-- The observable outcome of one `process_outbox` run: the final store, the
committed store states in order, the argument of each attempted sink insert,
whether the exception propagated, and the logged errors / Sentry alerts. -/
structure RunResult where
  store : Store
  trace : List Store
  sinkCalls : List (List OutboxRecord)
  raised : Bool
  loggedErrors : List String
  alerts : List String

/-- The except-branch rollback (tasks.py lines 81-86): `if pending_logs_ids:`
then one atomic `filter(id__in=pending_logs_ids).update(status=FAILED,
updated_at=now)`. -/
def markFailedOnError (ids : List Nat) (now : Nat) (s : Store) : Store :=
  if ids = [] then s else updateWhereIds ids Status.failed now s

/-- The Sentry message of tasks.py line 88:
`f"Outbox processing error: {str(e)}"`. -/
def sentryMessage (e : String) : String := "Outbox processing error: " ++ e

/-- `process_outbox` (tasks.py lines 20-89), one run. Sequential steps:
stale reclaim; claim selection (early return when empty); mark-processing
update on the captured id list; sink insert; mark-processed update; and on an
exception after the reclaim, the except branch: log the error, mark the
claimed ids (if any) failed, send the Sentry alert, re-raise. An exception in
the window after the id list is captured but before the step-3 update
commits reaches the except branch with the claimed rows still in their
claim-time statuses. -/
def process_outbox (now : Nat) (fp : FailPoint) (errMsg : String) (s : Store) :
    RunResult :=
  let s1 := reclaimStale now s
  if fp = FailPoint.duringClaim then
    { store := markFailedOnError [] now s1
      trace := [s1]
      sinkCalls := []
      raised := true
      loggedErrors := [errMsg]
      alerts := [sentryMessage errMsg] }
  else
    let batch := claimBatch s1
    if batch = [] then
      { store := s1, trace := [s1], sinkCalls := [], raised := false,
        loggedErrors := [], alerts := [] }
    else
      let ids := batch.map fun r => r.id
      if fp = FailPoint.beforeMarkProcessing then
        let sF := markFailedOnError ids now s1
        { store := sF, trace := [s1, sF], sinkCalls := [],
          raised := true, loggedErrors := [errMsg],
          alerts := [sentryMessage errMsg] }
      else
      let s2 := updateWhereIds ids Status.processing now s1
      if fp = FailPoint.sinkInsert then
        let s3 := markFailedOnError ids now s2
        { store := s3, trace := [s1, s2, s3], sinkCalls := [batch],
          raised := true, loggedErrors := [errMsg],
          alerts := [sentryMessage errMsg] }
      else
        let s3 := updateWhereIds ids Status.processed now s2
        { store := s3, trace := [s1, s2, s3], sinkCalls := [batch],
          raised := false, loggedErrors := [], alerts := [] }

/-- The observable outcome of `log_event`: the store afterwards, the returned
record (or `none`), and `(error, event_type)` pairs passed to `logger.error`. -/
structure LogEventResult where
  store : Store
  result : Option OutboxRecord
  loggedErrors : List (String × String)

/-- `log_event` (use_case.py lines 41-66): inside an atomic transaction,
`Outbox.objects.create(event_type=…, event_date_time=timezone.now(),
environment=…, event_context=…, metadata_version=1, status=STATUS_PENDING)`
and return the entry; on any exception, `logger.error("Failed to log event",
error=str(e), event_type=event_type)` and return `None`. `insertOk` says
whether the underlying store insert succeeds; `newId` is the store-assigned
id of the created row. -/
def log_event (now newId : Nat) (insertOk : Bool) (errMsg : String)
    (event_type : String) (event_context : String) (environment : String)
    (s : Store) : LogEventResult :=
  if insertOk then
    let entry : OutboxRecord :=
      { id := newId
        event_type := event_type
        event_date_time := now
        environment := environment
        event_context := event_context
        metadata_version := 1
        status := Status.pending
        created_at := now
        updated_at := now }
    { store := s ++ [entry], result := some entry, loggedErrors := [] }
  else
    { store := s, result := none, loggedErrors := [(errMsg, event_type)] }

namespace Outbox

/-- `Outbox.STATUS_CHOICES` (models.py lines 33-38). -/
def STATUS_CHOICES : List (String × String) :=
  [("pending", "Pending"), ("processing", "Processing"),
   ("processed", "Processed"), ("failed", "Failed")]

/-- `Outbox.clean` (models.py lines 55-59): raise `ValidationError` when the
raw status string is not a key of `dict(STATUS_CHOICES)`, or when
`len(event_type) > 255`. -/
def clean (status : String) (event_type : String) : Except String Unit :=
  if ¬ (STATUS_CHOICES.map Prod.fst).contains status then
    Except.error ("Invalid status: " ++ status)
  else if event_type.length > 255 then
    Except.error "Слишком длинный event_type"
  else
    Except.ok ()

end Outbox

/-! ### Basic lemmas about the store operations -/

theorem length_reclaimStale (now : Nat) (s : Store) :
    (reclaimStale now s).length = s.length := by
  simp [reclaimStale]

theorem length_updateWhereIds (ids : List Nat) (st : Status) (now : Nat)
    (s : Store) : (updateWhereIds ids st now s).length = s.length := by
  simp [updateWhereIds]

theorem get_reclaimStale (now : Nat) (s : Store) (i : Nat) (h1 : i < s.length)
    (h2 : i < (reclaimStale now s).length) :
    (reclaimStale now s).get ⟨i, h2⟩ =
      if (s.get ⟨i, h1⟩).status = Status.processing ∧
          (s.get ⟨i, h1⟩).updated_at ≤ staleThreshold now then
        { s.get ⟨i, h1⟩ with status := Status.failed }
      else s.get ⟨i, h1⟩ := by
  simp [reclaimStale]

theorem get_updateWhereIds (ids : List Nat) (st : Status) (now : Nat)
    (s : Store) (i : Nat) (h1 : i < s.length)
    (h2 : i < (updateWhereIds ids st now s).length) :
    (updateWhereIds ids st now s).get ⟨i, h2⟩ =
      if (s.get ⟨i, h1⟩).id ∈ ids then
        { s.get ⟨i, h1⟩ with status := st, updated_at := now }
      else s.get ⟨i, h1⟩ := by
  simp [updateWhereIds]

/-! ### C6: validation in `Outbox.clean` -/

/-- C6: creating an Outbox record with a `status` outside
`{pending, processing, processed, failed}` fails with a validation error, and
an `event_type` longer than 255 characters fails with a validation error —
both raised by `Outbox.clean` (models.py lines 55-59). -/
theorem claim_C6_clean_validation (status event_type : String)
    (h : (Outbox.STATUS_CHOICES.map Prod.fst).contains status = false ∨
      255 < event_type.length) :
    ∃ msg, Outbox.clean status event_type = Except.error msg := by
  unfold Outbox.clean
  by_cases hs : (Outbox.STATUS_CHOICES.map Prod.fst).contains status = true
  · rw [if_neg (fun hn => hn hs)]
    rcases h with h | h
    · rw [hs] at h
      exact absurd h (by simp)
    · rw [if_pos h]
      exact ⟨_, rfl⟩
  · rw [if_pos hs]
    exact ⟨_, rfl⟩

/-- Witness for C6 at a concrete invalid status. -/
theorem claim_C6_clean_validation_witness :
    ∃ msg, Outbox.clean "bogus" "t" = Except.error msg :=
  claim_C6_clean_validation "bogus" "t" (Or.inl (by decide))

/-! ### C7 and C10: the `log_event` contract -/

/-- C7: `log_event` never propagates an exception: when the underlying insert
raises, the error is logged with the event_type and `log_event` returns `none`
leaving the store unchanged; otherwise it returns the created record with
status `pending`, `metadata_version` 1 and `event_date_time` set to the
current time, appended to the store, with nothing logged. The embedding
`log_event` is a total function: every outcome is one of these two. -/
theorem claim_C7_log_event_never_raises
    (now newId : Nat) (errMsg ty cx env : String) (s : Store) :
    ((log_event now newId false errMsg ty cx env s).result = none ∧
     (log_event now newId false errMsg ty cx env s).store = s ∧
     (log_event now newId false errMsg ty cx env s).loggedErrors =
       [(errMsg, ty)]) ∧
    (∃ entry,
      (log_event now newId true errMsg ty cx env s).result = some entry ∧
      entry.status = Status.pending ∧
      entry.metadata_version = 1 ∧
      entry.event_date_time = now ∧
      (log_event now newId true errMsg ty cx env s).store = s ++ [entry] ∧
      (log_event now newId true errMsg ty cx env s).loggedErrors = []) :=
  ⟨⟨rfl, rfl, rfl⟩, ⟨_, rfl, rfl, rfl, rfl, rfl, rfl⟩⟩

/-- C10: `log_event` enforces none of its stated input constraints: for an
empty `event_type` or an empty `environment` (and a store insert that
accepts the row) it still creates and returns a record with status `pending`,
carrying the empty strings through unchanged. -/
theorem claim_C10_log_event_no_input_checks
    (now newId : Nat) (errMsg ty cx env : String) (s : Store)
    (_h : ty = "" ∨ env = "") :
    ∃ entry,
      (log_event now newId true errMsg ty cx env s).result = some entry ∧
      entry.status = Status.pending ∧
      entry.event_type = ty ∧
      entry.environment = env := by
  exact ⟨_, rfl, rfl, rfl, rfl⟩

/-- Witness for C10 at a concrete empty event_type. -/
theorem claim_C10_log_event_no_input_checks_witness :
    ∃ entry,
      (log_event 7 1 true "e" "" "ctx" "prod" []).result = some entry ∧
      entry.status = Status.pending ∧
      entry.event_type = "" ∧
      entry.environment = "prod" :=
  claim_C10_log_event_no_input_checks 7 1 "e" "" "ctx" "prod" [] (Or.inl rfl)

/-! ### C3: the step-3 mark-processing update is a blind-id update -/

/-- A sample row whose status has moved to `processed`. -/
def procRowEx : OutboxRecord :=
  { id := 1, event_type := "t", event_date_time := 0, environment := "e",
    event_context := "c", metadata_version := 1,
    status := Status.processed, created_at := 0, updated_at := 0 }

/-- C3 counterexample: the step-3 update (tasks.py lines 60-64) filters by
`id__in=pending_logs_ids` only, not by `status IN (pending, failed)`. Applied
to a store whose only row has moved to status `processed`, with that row's id
in the captured id list, the update does modify the row, setting it back to
`processing` — contradicting the claim that it modifies no row whose status
changed away from `{pending, failed}`. -/
theorem claim_C3_counterexample :
    procRowEx.status = Status.processed ∧
    procRowEx.id ∈ [1] ∧
    updateWhereIds [1] Status.processing 5 [procRowEx] =
      [{ procRowEx with status := Status.processing, updated_at := 5 }] ∧
    updateWhereIds [1] Status.processing 5 [procRowEx] ≠ [procRowEx] := by
  refine ⟨rfl, by decide, rfl, by decide⟩

/-- C3 amended: the step-3 update is filtered only by the exact id set
captured at claim time. Every row whose id is in the captured set is set to
`processing` with `updated_at` refreshed — regardless of its current status,
including a status that changed away from `{pending, failed}` after the claim
selection — and every row whose id is not in the set is unmodified; ids are
preserved. -/
theorem claim_C3_amended
    (ids : List Nat) (now : Nat) (s : Store) :
    ((updateWhereIds ids Status.processing now s).map (fun r => r.id) =
      s.map fun r => r.id) ∧
    (∀ r ∈ s, r.id ∈ ids →
      { r with status := Status.processing, updated_at := now } ∈
        updateWhereIds ids Status.processing now s) ∧
    (∀ r ∈ s, r.id ∉ ids → r ∈ updateWhereIds ids Status.processing now s) ∧
    (∀ u ∈ updateWhereIds ids Status.processing now s, u.id ∈ ids →
      u.status = Status.processing ∧ u.updated_at = now) := by
  refine ⟨?_, ?_, ?_, ?_⟩
  · unfold updateWhereIds
    rw [List.map_map]
    apply List.map_congr_left
    intro r _
    by_cases h : r.id ∈ ids
    · simp [h]
    · simp [h]
  · intro r hr hid
    unfold updateWhereIds
    have : { r with status := Status.processing, updated_at := now } =
        (fun x : OutboxRecord =>
          if x.id ∈ ids then { x with status := Status.processing, updated_at := now }
          else x) r := by
      simp [hid]
    rw [this]
    exact List.mem_map_of_mem _ hr
  · intro r hr hid
    unfold updateWhereIds
    have : r = (fun x : OutboxRecord =>
        if x.id ∈ ids then { x with status := Status.processing, updated_at := now }
        else x) r := by
      simp [hid]
    rw [this]
    exact List.mem_map_of_mem _ hr
  · intro u hu hid
    unfold updateWhereIds at hu
    rcases List.mem_map.mp hu with ⟨r, _, hru⟩
    by_cases h : r.id ∈ ids
    · rw [if_pos h] at hru
      rw [← hru]
      exact ⟨rfl, rfl⟩
    · rw [if_neg h] at hru
      rw [← hru] at hid
      exact absurd hid h

/-- Witness for the amended C3 at a concrete store: a `processed` row whose id
is in the captured set is overwritten to `processing`. -/
theorem claim_C3_amended_witness :
    { procRowEx with status := Status.processing, updated_at := 5 } ∈
      updateWhereIds [1] Status.processing 5 [procRowEx] :=
  (claim_C3_amended [1] 5 [procRowEx]).2.1 procRowEx (by decide) (by decide)

/-! ### C8: empty claim set is a no-op; C9: updated_at frame conditions -/

/-- C8: a run that finds zero records with status in `{pending, failed}` at
claim time (after the stale reclaim) performs no store update other than the
stale-reclaim update — the final store and the whole committed trace are just
the reclaimed store — makes no sink call, and returns successfully. Stated
for any failure point other than one raised inside the claim selection
itself. -/
theorem claim_C8_empty_claim_noop (now : Nat) (fp : FailPoint)
    (errMsg : String) (s : Store)
    (hfp : fp ≠ FailPoint.duringClaim)
    (h : ∀ r ∈ reclaimStale now s, eligible r = false) :
    (process_outbox now fp errMsg s).store = reclaimStale now s ∧
    (process_outbox now fp errMsg s).trace = [reclaimStale now s] ∧
    (process_outbox now fp errMsg s).sinkCalls = [] ∧
    (process_outbox now fp errMsg s).raised = false ∧
    (process_outbox now fp errMsg s).loggedErrors = [] := by
  have hfil : (reclaimStale now s).filter eligible = [] := by
    rw [List.filter_eq_nil_iff]
    intro r hr
    rw [h r hr]
    exact Bool.false_ne_true
  have hbatch : claimBatch (reclaimStale now s) = [] := by
    unfold claimBatch
    rw [hfil]
    rfl
  unfold process_outbox
  rw [if_neg hfp]
  simp only [hbatch, if_pos rfl]
  exact ⟨rfl, rfl, rfl, rfl, rfl⟩

/-- Witness for C8 on a store whose only row is already `processed`. -/
theorem claim_C8_empty_claim_noop_witness :
    (process_outbox 0 FailPoint.noFail "e" [procRowEx]).store =
      reclaimStale 0 [procRowEx] ∧
    (process_outbox 0 FailPoint.noFail "e" [procRowEx]).trace =
      [reclaimStale 0 [procRowEx]] ∧
    (process_outbox 0 FailPoint.noFail "e" [procRowEx]).sinkCalls = [] ∧
    (process_outbox 0 FailPoint.noFail "e" [procRowEx]).raised = false ∧
    (process_outbox 0 FailPoint.noFail "e" [procRowEx]).loggedErrors = [] :=
  claim_C8_empty_claim_noop 0 FailPoint.noFail "e" [procRowEx]
    (by decide) (by decide)

/-- C9: the stale-reclaim update writes only the `status` field of the
matched rows — every row of the reclaimed store is the original row or the
original row with only `status` replaced, so in particular `updated_at` is
never refreshed — whereas the mark-processing, mark-processed and mark-failed
updates (the `updateWhereIds` instances of steps 3, 5 and 6) set
`updated_at` to the current time on every affected row. -/
theorem claim_C9_updated_at_frame (now : Nat) (s : Store) (ids : List Nat)
    (st : Status) :
    ((reclaimStale now s).map (fun r => r.updated_at) =
      s.map fun r => r.updated_at) ∧
    (∀ i (h1 : i < s.length) (h2 : i < (reclaimStale now s).length),
      (reclaimStale now s).get ⟨i, h2⟩ = s.get ⟨i, h1⟩ ∨
      (reclaimStale now s).get ⟨i, h2⟩ =
        { s.get ⟨i, h1⟩ with status := Status.failed }) ∧
    (∀ u ∈ updateWhereIds ids st now s, u.id ∈ ids → u.updated_at = now) := by
  refine ⟨?_, ?_, ?_⟩
  · unfold reclaimStale
    rw [List.map_map]
    apply List.map_congr_left
    intro r _
    by_cases h : r.status = Status.processing ∧ r.updated_at ≤ staleThreshold now
    · simp [h]
    · simp [h]
  · intro i h1 h2
    rw [get_reclaimStale now s i h1 h2]
    by_cases h : (s.get ⟨i, h1⟩).status = Status.processing ∧
        (s.get ⟨i, h1⟩).updated_at ≤ staleThreshold now
    · rw [if_pos h]
      exact Or.inr rfl
    · rw [if_neg h]
      exact Or.inl rfl
  · intro u hu hid
    unfold updateWhereIds at hu
    rcases List.mem_map.mp hu with ⟨r, _, hru⟩
    by_cases h : r.id ∈ ids
    · rw [if_pos h] at hru
      rw [← hru]
    · rw [if_neg h] at hru
      rw [← hru] at hid
      exact absurd hid h

/-- Witness for C9 on a concrete one-row store. -/
theorem claim_C9_updated_at_frame_witness :
    ((reclaimStale 0 [procRowEx]).map (fun r => r.updated_at) =
      [procRowEx].map fun r => r.updated_at) ∧
    ((reclaimStale 0 [procRowEx]).get ⟨0, by decide⟩ =
        [procRowEx].get ⟨0, by decide⟩ ∨
      (reclaimStale 0 [procRowEx]).get ⟨0, by decide⟩ =
        { [procRowEx].get ⟨0, by decide⟩ with status := Status.failed }) ∧
    ({ procRowEx with status := Status.processing, updated_at := 9 }).updated_at
      = 9 := by
  have h := claim_C9_updated_at_frame 9 [procRowEx] [1] Status.processing
  have h0 := claim_C9_updated_at_frame 0 ([procRowEx] : Store) [1] Status.processing
  refine ⟨h0.1, h0.2.1 0 (by decide) (by decide), ?_⟩
  exact h.2.2 _ (by decide) (by decide)

/-! ### The shape of the final store of a run -/

/-- Mapping a function that fixes every element of a list is the identity. -/
theorem map_eq_self_of_eq {α : Type} (f : α → α) (l : List α)
    (h : ∀ a ∈ l, f a = a) : l.map f = l := by
  induction l with
  | nil => rfl
  | cons x xs ih =>
    rw [List.map_cons, h x (List.mem_cons_self x xs),
      ih fun a ha => h a (List.mem_cons_of_mem x ha)]

/-- The stale reclaim does not touch a store with no `processing` row. -/
theorem reclaimStale_of_no_processing (now : Nat) (s : Store)
    (h : ∀ r ∈ s, r.status ≠ Status.processing) : reclaimStale now s = s := by
  unfold reclaimStale
  apply map_eq_self_of_eq
  intro r hr
  rw [if_neg]
  intro hc
  exact h r hr hc.1

/-- C1 counterexample: the empty store satisfies the claim's hypotheses
vacuously (every record is `pending`, N = 0 ≤ 500, no `processing` or
`failed` records), yet a successful run performs zero sink insert calls, not
exactly one: `process_outbox` returns before the sink step when the claim
selection is empty (tasks.py lines 52-54). -/
theorem claim_C1_counterexample :
    (∀ r ∈ ([] : Store), r.status = Status.pending) ∧
    ([] : Store).length ≤ 500 ∧
    (process_outbox 0 FailPoint.noFail "e" []).sinkCalls = [] := by
  refine ⟨by simp, by decide, by decide⟩

/-- C1 amended (restricted to 1 ≤ N, forced by the counterexample: at N = 0
the run is the documented no-op and makes no sink call): for a store of
exactly N pending records, 1 ≤ N ≤ 500, a run whose sink insert succeeds
ends with exactly those N records in status `processed` (all other fields
unchanged, `updated_at` refreshed), performs exactly one sink insert call
whose argument is exactly those N records (a permutation of the store) in
`created_at`-ascending order, and returns without raising. -/
theorem claim_C1_amended (now : Nat) (errMsg : String) (s : Store)
    (hpend : ∀ r ∈ s, r.status = Status.pending)
    (hlen : s.length ≤ 500) (hne : s ≠ []) :
    (process_outbox now FailPoint.noFail errMsg s).store =
      s.map (fun r => { r with status := Status.processed, updated_at := now }) ∧
    (∃ c, (process_outbox now FailPoint.noFail errMsg s).sinkCalls = [c] ∧
      List.Perm c s ∧ c.Sorted createdLE) ∧
    (process_outbox now FailPoint.noFail errMsg s).raised = false := by
  have hs1 : reclaimStale now s = s := by
    apply reclaimStale_of_no_processing
    intro r hr
    rw [hpend r hr]
    intro hc
    cases hc
  have hfil : s.filter eligible = s := by
    rw [List.filter_eq_self]
    intro r hr
    unfold eligible
    rw [hpend r hr]
    rfl
  have hbatch : claimBatch s = List.insertionSort createdLE s := by
    unfold claimBatch
    rw [hfil]
    apply List.take_of_length_le
    rw [(List.perm_insertionSort createdLE s).length_eq]
    exact hlen
  have hperm : List.Perm (claimBatch s) s := by
    rw [hbatch]
    exact List.perm_insertionSort createdLE s
  have hsorted : (claimBatch s).Sorted createdLE := by
    rw [hbatch]
    exact List.sorted_insertionSort createdLE s
  have hbne : claimBatch s ≠ [] := by
    intro h0
    rw [h0] at hperm
    exact hne (List.Perm.eq_nil hperm.symm)
  have hmem : ∀ r ∈ s, r.id ∈ (claimBatch s).map fun x => x.id := fun r hr =>
    List.mem_map_of_mem _ (hperm.mem_iff.mpr hr)
  have hstore : updateWhereIds ((claimBatch s).map fun x => x.id)
      Status.processed now
      (updateWhereIds ((claimBatch s).map fun x => x.id)
        Status.processing now s) =
      s.map fun r => { r with status := Status.processed, updated_at := now } := by
    unfold updateWhereIds
    rw [List.map_map]
    apply List.map_congr_left
    intro r hr
    have h1 := hmem r hr
    simp [Function.comp, h1]
  simp only [process_outbox]
  rw [hs1]
  simp only [if_neg hbne]
  simp only [reduceCtorEq, if_false]
  exact ⟨hstore, ⟨claimBatch s, rfl, hperm, hsorted⟩, trivial⟩

/-! ### C4: the status transition machine -/

/-- The allowed status edges of the spec's state machine (§3), plus staying
put. -/
def allowedEdge (a b : Status) : Prop :=
  a = b ∨
  (a = Status.pending ∧ b = Status.processing) ∨
  (a = Status.processing ∧ b = Status.processed) ∨
  (a = Status.processing ∧ b = Status.failed) ∨
  (a = Status.failed ∧ b = Status.processing)

instance (a b : Status) : Decidable (allowedEdge a b) := by
  unfold allowedEdge
  infer_instance

/-- One committed store write moves every row along an allowed edge (or not
at all), positionwise. -/
def stepOk (t u : Store) : Prop :=
  t.length = u.length ∧
  ∀ i (h1 : i < t.length) (h2 : i < u.length),
    allowedEdge (t.get ⟨i, h1⟩).status (u.get ⟨i, h2⟩).status

/-- The stale reclaim preserves the id column. -/
theorem ids_reclaimStale (now : Nat) (s : Store) :
    (reclaimStale now s).map (fun r => r.id) = s.map fun r => r.id := by
  unfold reclaimStale
  rw [List.map_map]
  apply List.map_congr_left
  intro r _
  by_cases h : r.status = Status.processing ∧ r.updated_at ≤ staleThreshold now
  · simp [h]
  · simp [h]

/-- A claimed record is a record of the store satisfying the claim filter. -/
theorem mem_claimBatch {s : Store} {r : OutboxRecord} (h : r ∈ claimBatch s) :
    r ∈ s ∧ eligible r = true := by
  unfold claimBatch at h
  have h1 : r ∈ (s.filter eligible).insertionSort createdLE :=
    List.take_subset _ _ h
  rw [List.mem_insertionSort] at h1
  exact ⟨(List.mem_filter.mp h1).1, (List.mem_filter.mp h1).2⟩

/-- Rows touched by a blind-id update carry the written status and
timestamp. -/
theorem status_updateWhereIds_mem (ids : List Nat) (st : Status) (now : Nat)
    (s : Store) :
    ∀ u ∈ updateWhereIds ids st now s,
      u.id ∈ ids → u.status = st ∧ u.updated_at = now := by
  intro u hu hid
  unfold updateWhereIds at hu
  rcases List.mem_map.mp hu with ⟨r, _, hru⟩
  by_cases h : r.id ∈ ids
  · rw [if_pos h] at hru
    rw [← hru]
    exact ⟨rfl, rfl⟩
  · rw [if_neg h] at hru
    rw [← hru] at hid
    exact absurd hid h

/-- Step 1 only moves rows along `processing → failed`. -/
theorem stepOk_reclaimStale (now : Nat) (s : Store) :
    stepOk s (reclaimStale now s) := by
  refine ⟨(length_reclaimStale now s).symm, ?_⟩
  intro i h1 h2
  rw [get_reclaimStale now s i h1 h2]
  by_cases h : (s.get ⟨i, h1⟩).status = Status.processing ∧
      (s.get ⟨i, h1⟩).updated_at ≤ staleThreshold now
  · rw [if_pos h]
    exact Or.inr (Or.inr (Or.inr (Or.inl ⟨h.1, rfl⟩)))
  · rw [if_neg h]
    exact Or.inl rfl

/-- Step 3 only moves rows along `pending → processing` and
`failed → processing`: with store-unique ids, a row whose id is in the
claimed id set is the claimed record itself, hence was eligible. -/
theorem stepOk_mark_processing (now : Nat) (s1 : Store)
    (hids : (s1.map fun r => r.id).Nodup) :
    stepOk s1 (updateWhereIds ((claimBatch s1).map fun r => r.id)
      Status.processing now s1) := by
  refine ⟨(length_updateWhereIds _ _ _ _).symm, ?_⟩
  intro i h1 h2
  rw [get_updateWhereIds _ _ _ _ i h1 h2]
  by_cases h : (s1.get ⟨i, h1⟩).id ∈ (claimBatch s1).map fun x => x.id
  · rw [if_pos h]
    rcases List.mem_map.mp h with ⟨b, hb, hbid⟩
    have hbmem := mem_claimBatch hb
    have hbr : b = s1.get ⟨i, h1⟩ :=
      List.inj_on_of_nodup_map hids hbmem.1 (List.get_mem s1 i h1) hbid
    have helig : (s1.get ⟨i, h1⟩).status = Status.pending ∨
        (s1.get ⟨i, h1⟩).status = Status.failed := by
      have h2b := hbmem.2
      rw [hbr] at h2b
      unfold eligible at h2b
      simpa using h2b
    rcases helig with he | he
    · exact Or.inr (Or.inl ⟨he, rfl⟩)
    · exact Or.inr (Or.inr (Or.inr (Or.inr ⟨he, rfl⟩)))
  · rw [if_neg h]
    exact Or.inl rfl

/-- Steps 5 and 6 only move rows along `processing → processed` and
`processing → failed`: every row they touch was set to `processing` by
step 3. -/
theorem stepOk_finalize (ids : List Nat) (st : Status) (now : Nat)
    (s1 : Store) (hst : st = Status.processed ∨ st = Status.failed) :
    stepOk (updateWhereIds ids Status.processing now s1)
      (updateWhereIds ids st now
        (updateWhereIds ids Status.processing now s1)) := by
  refine ⟨(length_updateWhereIds _ _ _ _).symm, ?_⟩
  intro i h1 h2
  rw [get_updateWhereIds _ _ _ _ i h1 h2]
  by_cases h : ((updateWhereIds ids Status.processing now s1).get
      ⟨i, h1⟩).id ∈ ids
  · rw [if_pos h]
    have hu := status_updateWhereIds_mem ids Status.processing now s1
      ((updateWhereIds ids Status.processing now s1).get ⟨i, h1⟩)
      (List.get_mem _ i h1) h
    rcases hst with he | he
    · exact Or.inr (Or.inr (Or.inl ⟨hu.1, he⟩))
    · exact Or.inr (Or.inr (Or.inr (Or.inl ⟨hu.1, he⟩)))
  · rw [if_neg h]
    exact Or.inl rfl

/-- A step that additionally allows the except-branch write pending →
failed, which the code commits when the exception hit after the id list was
captured but before the mark-processing update committed. -/
def stepOkAmended (t u : Store) : Prop :=
  t.length = u.length ∧
  ∀ i (h1 : i < t.length) (h2 : i < u.length),
    allowedEdge (t.get ⟨i, h1⟩).status (u.get ⟨i, h2⟩).status ∨
    ((t.get ⟨i, h1⟩).status = Status.pending ∧
      (u.get ⟨i, h2⟩).status = Status.failed)

/-- Every `stepOk` step is a `stepOkAmended` step. -/
theorem stepOkAmended_of_stepOk {t u : Store} (h : stepOk t u) :
    stepOkAmended t u :=
  ⟨h.1, fun i h1 h2 => Or.inl (h.2 i h1 h2)⟩

/-- The except-branch update run directly on the reclaimed store (step-3
window exception) moves each claimed row — still `pending` or `failed` at
that point, given store-unique ids — to `failed`: a pending → failed write
or a no-move. -/
theorem stepOkAmended_mark_failed_window (now : Nat) (s1 : Store)
    (hids : (s1.map fun r => r.id).Nodup) :
    stepOkAmended s1 (updateWhereIds ((claimBatch s1).map fun r => r.id)
      Status.failed now s1) := by
  refine ⟨(length_updateWhereIds _ _ _ _).symm, ?_⟩
  intro i h1 h2
  rw [get_updateWhereIds _ _ _ _ i h1 h2]
  by_cases h : (s1.get ⟨i, h1⟩).id ∈ (claimBatch s1).map fun x => x.id
  · rw [if_pos h]
    rcases List.mem_map.mp h with ⟨b, hb, hbid⟩
    have hbmem := mem_claimBatch hb
    have hbr : b = s1.get ⟨i, h1⟩ :=
      List.inj_on_of_nodup_map hids hbmem.1 (List.get_mem s1 i h1) hbid
    have helig : (s1.get ⟨i, h1⟩).status = Status.pending ∨
        (s1.get ⟨i, h1⟩).status = Status.failed := by
      have h2b := hbmem.2
      rw [hbr] at h2b
      unfold eligible at h2b
      simpa using h2b
    rcases helig with he | he
    · exact Or.inr ⟨he, rfl⟩
    · exact Or.inl (Or.inl he)
  · rw [if_neg h]
    exact Or.inl (Or.inl rfl)

/-- C4 counterexample: the claim fails on the code. On a one-row `pending`
store with (trivially) store-unique ids, a run that raises in the window
after `pending_logs_ids` is captured (tasks.py line 57) but before the
step-3 atomic update commits — e.g. Celery's soft-time-limit exception under
the task's `soft_time_limit=300`, caught by `except Exception`, or a
database error that rolls back the step-3 atomic block — runs the
except-branch update (tasks.py lines 83-86) on the still-`pending` claimed
row, committing a direct pending → failed write: the run's trace is not a
chain of allowed-edge steps. -/
theorem claim_C4_counterexample :
    ((([{ procRowEx with status := Status.pending }] : Store).map
      fun r => r.id).Nodup) ∧
    ¬ List.Chain stepOk [{ procRowEx with status := Status.pending }]
      (process_outbox 0 FailPoint.beforeMarkProcessing "e"
        [{ procRowEx with status := Status.pending }]).trace := by
  refine ⟨by decide, ?_⟩
  intro h
  have htr : (process_outbox 0 FailPoint.beforeMarkProcessing "e"
      [{ procRowEx with status := Status.pending }]).trace =
      [[{ procRowEx with status := Status.pending }],
       [{ procRowEx with status := Status.failed }]] := by decide
  rw [htr] at h
  have h1 := (List.chain_cons.mp h).2
  have h2 := (List.chain_cons.mp h1).1
  have h3 := h2.2 0 (by decide) (by decide)
  exact absurd h3 (by decide)

/-- C4 amended (the counterexample forces admitting the except-branch
pending → failed write after a step-3-window exception, and no more): every
status write performed by `process_outbox` — each committed state of the
run's trace against its predecessor — moves each row only along the edges
pending → processing, processing → processed, processing → failed,
failed → processing, or pending → failed in the except-branch update when
the exception was raised after the id list was captured but before the
mark-processing update committed (given store-unique ids); a run that does
not raise in that window satisfies the original four-edge machine
unweakened. A `stepOkAmended` write still never moves a row out of
`processed`. And `log_event` performs no status write at all on existing
rows: every row of its resulting store is an untouched row of the input
store or the freshly created `pending` row. -/
theorem claim_C4_amended (now : Nat) (fp : FailPoint)
    (errMsg : String) (s : Store) (hids : (s.map fun r => r.id).Nodup) :
    List.Chain stepOkAmended s (process_outbox now fp errMsg s).trace ∧
    (fp ≠ FailPoint.beforeMarkProcessing →
      List.Chain stepOk s (process_outbox now fp errMsg s).trace) ∧
    (∀ t u, stepOkAmended t u →
      ∀ i (h1 : i < t.length) (h2 : i < u.length),
        (t.get ⟨i, h1⟩).status = Status.processed →
        (u.get ⟨i, h2⟩).status = Status.processed) ∧
    (∀ (newId : Nat) (ok : Bool) (em ty cx env : String),
      ∀ u ∈ (log_event now newId ok em ty cx env s).store,
        u ∈ s ∨ u.status = Status.pending) := by
  have hids1 : ((reclaimStale now s).map fun r => r.id).Nodup := by
    rw [ids_reclaimStale]
    exact hids
  have hstrong : fp ≠ FailPoint.beforeMarkProcessing →
      List.Chain stepOk s (process_outbox now fp errMsg s).trace := by
    intro hfp3
    simp only [process_outbox]
    by_cases hfp : fp = FailPoint.duringClaim
    · rw [if_pos hfp]
      exact List.Chain.cons (stepOk_reclaimStale now s) List.Chain.nil
    · rw [if_neg hfp]
      by_cases hb : claimBatch (reclaimStale now s) = []
      · rw [if_pos hb]
        exact List.Chain.cons (stepOk_reclaimStale now s) List.Chain.nil
      · rw [if_neg hb, if_neg hfp3]
        have hmark := stepOk_mark_processing now (reclaimStale now s) hids1
        by_cases hf2 : fp = FailPoint.sinkInsert
        · rw [if_pos hf2]
          have hidsne : (claimBatch (reclaimStale now s)).map
              (fun r => r.id) ≠ [] := fun hnil =>
            hb (List.map_eq_nil_iff.mp hnil)
          have hmf : markFailedOnError
              ((claimBatch (reclaimStale now s)).map fun r => r.id) now
              (updateWhereIds
                ((claimBatch (reclaimStale now s)).map fun r => r.id)
                Status.processing now (reclaimStale now s)) =
              updateWhereIds
                ((claimBatch (reclaimStale now s)).map fun r => r.id)
                Status.failed now
                (updateWhereIds
                  ((claimBatch (reclaimStale now s)).map fun r => r.id)
                  Status.processing now (reclaimStale now s)) := by
            unfold markFailedOnError
            rw [if_neg hidsne]
          refine List.Chain.cons (stepOk_reclaimStale now s) ?_
          refine List.Chain.cons hmark ?_
          rw [hmf]
          exact List.Chain.cons
            (stepOk_finalize _ Status.failed now _ (Or.inr rfl))
            List.Chain.nil
        · rw [if_neg hf2]
          exact List.Chain.cons (stepOk_reclaimStale now s)
            (List.Chain.cons hmark
              (List.Chain.cons
                (stepOk_finalize _ Status.processed now _ (Or.inl rfl))
                List.Chain.nil))
  refine ⟨?_, hstrong, ?_, ?_⟩
  · by_cases hfp3 : fp = FailPoint.beforeMarkProcessing
    · subst hfp3
      by_cases hb : claimBatch (reclaimStale now s) = []
      · have htr : (process_outbox now FailPoint.beforeMarkProcessing
            errMsg s).trace = [reclaimStale now s] := by
          simp [process_outbox, hb]
        rw [htr]
        exact List.Chain.cons
          (stepOkAmended_of_stepOk (stepOk_reclaimStale now s))
          List.Chain.nil
      · have hidsne : (claimBatch (reclaimStale now s)).map
            (fun r => r.id) ≠ [] := fun hnil =>
          hb (List.map_eq_nil_iff.mp hnil)
        have htr : (process_outbox now FailPoint.beforeMarkProcessing
            errMsg s).trace =
            [reclaimStale now s,
             updateWhereIds
               ((claimBatch (reclaimStale now s)).map fun r => r.id)
               Status.failed now (reclaimStale now s)] := by
          simp [process_outbox, markFailedOnError, hb, hidsne]
        rw [htr]
        exact List.Chain.cons
          (stepOkAmended_of_stepOk (stepOk_reclaimStale now s))
          (List.Chain.cons
            (stepOkAmended_mark_failed_window now (reclaimStale now s) hids1)
            List.Chain.nil)
    · exact List.Chain.imp (fun a b hab => stepOkAmended_of_stepOk hab)
        (hstrong hfp3)
  · intro t u h i h1 h2 hp
    rcases h.2 i h1 h2 with he | he
    · rcases he with he | he | he | he | he
      · rw [← he]
        exact hp
      · exact absurd (hp.symm.trans he.1) (by decide)
      · exact absurd (hp.symm.trans he.1) (by decide)
      · exact absurd (hp.symm.trans he.1) (by decide)
      · exact absurd (hp.symm.trans he.1) (by decide)
    · exact absurd (hp.symm.trans he.1) (by decide)
  · intro newId ok em ty cx env u hu
    cases ok with
    | false =>
      simp only [log_event, Bool.false_eq_true, if_false] at hu
      exact Or.inl hu
    | true =>
      simp only [log_event, if_true] at hu
      rcases List.mem_append.mp hu with h | h
      · exact Or.inl h
      · right
        rw [List.mem_singleton.mp h]

/-- Witness for the amended C4 on a concrete two-row store with distinct
ids, under both the step-3-window failure and a fully successful run. -/
theorem claim_C4_amended_witness :
    List.Chain stepOkAmended
      [{ procRowEx with id := 1, status := Status.pending },
       { procRowEx with id := 2, status := Status.failed }]
      (process_outbox 50 FailPoint.beforeMarkProcessing "e"
        [{ procRowEx with id := 1, status := Status.pending },
         { procRowEx with id := 2, status := Status.failed }]).trace ∧
    List.Chain stepOk
      [{ procRowEx with id := 1, status := Status.pending },
       { procRowEx with id := 2, status := Status.failed }]
      (process_outbox 50 FailPoint.noFail "e"
        [{ procRowEx with id := 1, status := Status.pending },
         { procRowEx with id := 2, status := Status.failed }]).trace := by
  have h1 := claim_C4_amended 50 FailPoint.beforeMarkProcessing "e"
    [{ procRowEx with id := 1, status := Status.pending },
     { procRowEx with id := 2, status := Status.failed }] (by decide)
  have h2 := claim_C4_amended 50 FailPoint.noFail "e"
    [{ procRowEx with id := 1, status := Status.pending },
     { procRowEx with id := 2, status := Status.failed }] (by decide)
  exact ⟨h1.1, h2.2.1 (by decide)⟩

/-- Witness for the amended C1 on a concrete one-row pending store. -/
theorem claim_C1_amended_witness :
    (process_outbox 3 FailPoint.noFail "e"
        [{ procRowEx with status := Status.pending }]).store =
      ([{ procRowEx with status := Status.pending }] : Store).map
        (fun r => { r with status := Status.processed, updated_at := 3 }) ∧
    ∃ c, (process_outbox 3 FailPoint.noFail "e"
        [{ procRowEx with status := Status.pending }]).sinkCalls = [c] ∧
      List.Perm c [{ procRowEx with status := Status.pending }] ∧
      c.Sorted createdLE := by
  have h := claim_C1_amended 3 "e" [{ procRowEx with status := Status.pending }]
    (by decide) (by decide) (by decide)
  exact ⟨h.1, h.2.1⟩
